import Mathlib

/-!
Shallow embedding of the job-orchestration engine in `src/job_manager.py`
(class `JobManager`).  Python timestamps (ISO-8601 strings produced by
`datetime.now().isoformat()`) are modelled as natural numbers: ISO-8601
strings of a fixed clock compare lexicographically exactly in chronological
order, which is how SQLite compares the TEXT columns.  Manifest modification
times (floats compared only for equality) are modelled as integers.
SQLite rows become Lean structures, tables become lists of rows, and the
per-table SQL statements become list transformations.
-/

/-- Splits a character list on the character slash, accumulating the current
segment in reverse (models the component split that `pathlib` performs). -/
def splitSlashAux : List Char → List Char → List String
  | [], cur => [String.mk cur.reverse]
  | c :: rest, cur =>
      if c == '/' then String.mk cur.reverse :: splitSlashAux rest []
      else splitSlashAux rest (c :: cur)

/-- All slash-separated chunks of a string, empty chunks included. -/
def splitSlash (s : String) : List String :=
  splitSlashAux s.data []

/-- Python `str.startswith`: the first string is a prefix of the second. -/
def strPrefixOf (p s : String) : Bool :=
  p.data.isPrefixOf s.data

/-- Python `name.startswith(".")` on a directory name, as used by
`JobManager.scan_jobs` to skip hidden directories and `.staging`. -/
def hiddenName (s : String) : Bool :=
  match s.data with
  | c :: _ => c == '.'
  | [] => false

/-- Python slicing `s[:n]` on a string. -/
def takeChars (s : String) (n : Nat) : String :=
  String.mk (s.data.take n)

/-- Python `a or b` for strings: `b` when `a` is empty (falsy), else `a`. -/
def pyOrS (a b : String) : String :=
  if a == "" then b else a

/-- One row of the `runs` table (schema in `SCHEMA_SQL`). -/
structure Run where
  run_id : Nat
  job_id : String
  status : String
  started_at : Nat
  finished_at : Option Nat
  duration_seconds : Option Int
  return_code : Option Int
  log_path : Option String
  error_message : Option String
deriving DecidableEq, Repr

/-- The row inserted by `JobManager._run_job` just before launching the
subprocess: `INSERT INTO runs (job_id, status, started_at, log_path)
VALUES (?, 'running', ?, ?)`; every column not named gets NULL. -/
def insert_run (run_id : Nat) (job_id : String) (started_at : Nat)
    (log_path : String) : Run :=
  { run_id := run_id
    job_id := job_id
    status := "running"
    started_at := started_at
    finished_at := none
    duration_seconds := none
    return_code := none
    log_path := some log_path
    error_message := none }

/-- Model of `JobManager._cleanup_stale_runs`: `UPDATE runs SET status='failed',
error_message='System restarted while running', finished_at=?
WHERE status='running'`.  Note the update names no other column. -/
def cleanup_stale_runs (now : Nat) (runs : List Run) : List Run :=
  runs.map (fun r =>
    if r.status == "running" then
      { r with
          status := "failed"
          error_message := some ("System restarted while running")
          finished_at := some now }
    else r)

/-- The image of a `running` row under the crash-recovery UPDATE: the three
columns the statement names change, every other column — `duration_seconds`
included — keeps its value. -/
def crash_recovered (now : Nat) (r : Run) : Run :=
  { r with
      status := "failed"
      error_message := some ("System restarted while running")
      finished_at := some now }

/-- A terminal run status as enumerated by the specification. -/
def run_terminal (s : String) : Bool :=
  s == "success" || s == "failed" || s == "timeout"

/-- The property claimed for every row: a terminal run carries both a
finish timestamp and a duration. -/
def terminal_fields_ok (r : Run) : Bool :=
  !run_terminal r.status || (r.finished_at.isSome && r.duration_seconds.isSome)

/-- Outcome of `subprocess.run` inside `JobManager._run_job`: a normal
completion with an exit code and captured streams, a
`subprocess.TimeoutExpired`, or any other exception (launch failure). -/
inductive ProcResult where
  | completed (returncode : Int) (stdout : String) (stderr : String)
  | timedOut
  | launchError (msg : String)
deriving DecidableEq, Repr

/-- The `(status, return_code, error_message)` triple computed by
`JobManager._run_job` from the subprocess outcome: `status` starts as
`'success'` and `error_message` as NULL; a nonzero exit code flips them to
`'failed'` with `(result.stderr or result.stdout or "")[:500]`; a timeout
gives `'timeout'` with a fixed message; any other exception gives
`'failed'` with `str(e)[:500]`. -/
def run_outcome (timeout : Nat) : ProcResult → String × Option Int × Option String
  | ProcResult.completed rc _out _err =>
      if rc == 0 then (("success"), some rc, none)
      else (("failed"), some rc, some (takeChars (pyOrS _err (pyOrS _out (""))) 500))
  | ProcResult.timedOut =>
      (("timeout"), none, some (("Timed out after ") ++ toString timeout ++ (" seconds")))
  | ProcResult.launchError msg =>
      (("failed"), none, some (takeChars msg 500))

/-- The final `UPDATE runs SET status=?, finished_at=?, duration_seconds=?,
return_code=?, error_message=? WHERE id=?` of `JobManager._run_job`,
applied to one row.  The duration is `finished_at - started_at` in seconds
(the Python code rounds the float to two decimals; the model keeps whole
seconds, which is irrelevant to nullability and sign). -/
def finalized_run (r : Run) (timeout : Nat) (pr : ProcResult) (finished : Nat) : Run :=
  { r with
      status := (run_outcome timeout pr).1
      finished_at := some finished
      duration_seconds := some ((finished : Int) - (r.started_at : Int))
      return_code := (run_outcome timeout pr).2.1
      error_message := (run_outcome timeout pr).2.2 }

/-- The same final UPDATE applied to the whole `runs` table (`WHERE id=?`). -/
def finalize_runs (runs : List Run) (rid : Nat) (timeout : Nat) (pr : ProcResult)
    (finished : Nat) : List Run :=
  runs.map (fun r => if r.run_id == rid then finalized_run r timeout pr finished else r)

/-- Whether a path string is absolute (starts with a slash). -/
def pathIsAbs (s : String) : Bool :=
  match s.data with
  | c :: _ => c == '/'
  | [] => false

/-- The path components `pathlib` keeps: slash-separated chunks with empty
chunks and single-dot chunks dropped (pathlib normalizes those away). -/
def pathSegs (s : String) : List String :=
  (splitSlash s).filter (fun seg => !(seg == ("")) && !(seg == (".")))

/-- Model of the pathlib join `base / arg`: an absolute right operand replaces the base. -/
def joinSegs (base arg : String) : List String :=
  if pathIsAbs arg then pathSegs arg else pathSegs base ++ pathSegs arg

/-- Model of `Path.resolve()` on an absolute segment list (no symlinks modelled):
`..` pops the last component (at the root it is a no-op). -/
def resolveSegs (segs : List String) : List String :=
  segs.foldl (fun acc seg => if seg == ("..") then acc.dropLast else acc ++ [seg]) []

/-- Renders resolved components back to the absolute path string that
`str(path)` produces. -/
def renderAbs (segs : List String) : String :=
  ("/") ++ String.intercalate ("/") segs

/-- Rendering of `str(self.logs_dir.resolve())` (the logs root is configured absolute). -/
def resolvedRoot (logs_dir : String) : String :=
  renderAbs (resolveSegs (pathSegs logs_dir))

/-- Rendering of `str((self.logs_dir / log_path).resolve())`. -/
def resolvedTarget (logs_dir log_path : String) : String :=
  renderAbs (resolveSegs (joinSegs logs_dir log_path))

/-- Whether an absolute path string lies at or below an absolute directory,
in the directory sense (the meaning of "inside the logs root"). -/
def path_within (root full : String) : Bool :=
  full == root || strPrefixOf (root ++ ("/")) full

/-- Association-list lookup keyed by strings (models a dict / a directory
listing / a row keyed by primary key). -/
def lookupA {α : Type} (l : List (String × α)) (k : String) : Option α :=
  (l.find? (fun e => e.1 == k)).map Prod.snd

/-- Replaces or inserts the entry for a key (models writing a dict key or
replacing a directory entry). -/
def setAssoc {α : Type} (l : List (String × α)) (k : String) (v : α) :
    List (String × α) :=
  l.filter (fun e => !(e.1 == k)) ++ [(k, v)]

/-- Deletes the entry for a key. -/
def removeA {α : Type} (l : List (String × α)) (k : String) : List (String × α) :=
  l.filter (fun e => !(e.1 == k))

/-- Model of `JobManager.get_log_content`: joins the request path onto the logs root,
resolves it, and rejects it unless the rendered resolved string *starts
with* the rendered resolved logs root (`str(full_path).startswith(...)`);
then reads the file.  The filesystem is a map from absolute resolved path
strings to readable content; a missing entry models both "file does not
exist" and an unreadable file, which the code also answers with None. -/
def get_log_content (fs : List (String × String)) (logs_dir : String)
    (log_path : String) : Option String :=
  let full := resolvedTarget logs_dir log_path
  if strPrefixOf (resolvedRoot logs_dir) full then
    match lookupA fs full with
    | some content => some content
    | none => none
  else none

/-- The log paths that `JobManager.cleanup_old_logs` tries to unlink: the
non-NULL, non-empty (`if run["log_path"]:`) paths of rows whose
`started_at` is strictly below the cutoff. -/
def oldLogPaths (cutoff : Nat) (runs : List Run) : List String :=
  (runs.filter (fun r => decide (r.started_at < cutoff))).filterMap
    (fun r =>
      match r.log_path with
      | some p => if p == ("") then none else some p
      | none => none)

/-- Model of `JobManager.cleanup_old_logs` acting on the runs table and on the set of
existing log files.  `unlink_ok p` tells whether deleting file `p`
succeeds; a failed unlink is logged and skipped (the file survives), and
the row deletion `DELETE FROM runs WHERE started_at < ?` runs regardless. -/
def cleanup_old_logs (cutoff : Nat) (runs : List Run) (fs : List String)
    (unlink_ok : String → Bool) : List Run × List String :=
  ( runs.filter (fun r => !decide (r.started_at < cutoff))
  , fs.filter (fun p => !((oldLogPaths cutoff runs).contains p && unlink_ok p)) )

/-- An APScheduler trigger registration: the trigger kind passed to
`scheduler.add_job` together with its keyword arguments. -/
structure Trigger where
  kind : String
  kwargs : List (String × Nat)
deriving DecidableEq, Repr

/-- The interval-branch default of `JobManager._schedule_job`: if none of
`seconds`, `minutes`, `hours` is among the trigger keyword arguments, the
code sets `trigger_kwargs["hours"] = 1`.  Note the condition does not
mention `days`. -/
def schedule_interval_kwargs (cfg : List (String × Nat)) : List (String × Nat) :=
  if (lookupA cfg ("seconds")).isNone && (lookupA cfg ("minutes")).isNone &&
      (lookupA cfg ("hours")).isNone then
    cfg ++ [(("hours"), 1)]
  else cfg

/-- The period, in seconds, of an APScheduler `IntervalTrigger` built from
keyword arguments: the library sums them into one `timedelta`
(weeks, days, hours, minutes, seconds). -/
def interval_trigger_seconds (kwargs : List (String × Nat)) : Nat :=
  604800 * ((lookupA kwargs ("weeks")).getD 0) +
  86400 * ((lookupA kwargs ("days")).getD 0) +
  3600 * ((lookupA kwargs ("hours")).getD 0) +
  60 * ((lookupA kwargs ("minutes")).getD 0) +
  ((lookupA kwargs ("seconds")).getD 0)

/-- The trigger that `JobManager._schedule_job` would register for a job
with the given schedule type and configuration. -/
def trigger_of (schedule_type : String) (cfg : List (String × Nat)) : Trigger :=
  if schedule_type == ("cron") then { kind := ("cron"), kwargs := cfg }
  else { kind := ("interval"), kwargs := schedule_interval_kwargs cfg }

/-- Model of `JobManager._schedule_job` acting on the scheduler's registration set:
always removes any existing registration for the job id, then — only when
the job is enabled — adds the trigger (cron as given; anything else is the
interval default path). -/
def schedule_job_regs (regs : List (String × Trigger)) (job_id : String)
    (schedule_type : String) (cfg : List (String × Nat)) (enabled : Bool) :
    List (String × Trigger) :=
  let cleared := regs.filter (fun r => !(r.1 == job_id))
  if !enabled then cleared
  else cleared ++ [(job_id, trigger_of schedule_type cfg)]

/-- One row of the `jobs` table. -/
structure Job where
  id : String
  task : String
  name : String
  description : String
  schedule_type : String
  schedule_config : List (String × Nat)
  entry_point : String
  timeout : Nat
  enabled : Bool
  yaml_mtime : Int
  created_at : Nat
  updated_at : Nat
deriving DecidableEq, Repr

/-- A parsed `job.yaml` manifest: the keys `JobManager.register_job` reads
(the schedule dict is already split into its `type` entry and the
remaining key/value pairs, as the code does). -/
structure JobConfig where
  name : Option String
  description : Option String
  schedule_type : Option String
  schedule_config : List (String × Nat)
  entry_point : Option String
  timeout : Option Nat
deriving DecidableEq, Repr

/-- An on-disk `job.yaml`: its modification time and its parse result
(`none` models a `yaml.safe_load` failure). -/
structure Manifest where
  mtime : Int
  parsed : Option JobConfig
deriving DecidableEq, Repr

/-- One immediate subdirectory of the jobs directory: its name and its
`job.yaml`, if present. -/
abbrev DiskEntry := String × Option Manifest

/-- The engine state the scanner mutates: the `jobs` table, the scheduler's
registrations, and the `runs` table. -/
structure EngineState where
  jobs : List Job
  regs : List (String × Trigger)
  runs : List Run
deriving DecidableEq, Repr

/-- The query `SELECT * FROM jobs WHERE id = ?`. -/
def lookupJob (jobs : List Job) (job_id : String) : Option Job :=
  jobs.find? (fun j => j.id == job_id)

/-- The scheduler registration stored for a job id. -/
def lookupReg (regs : List (String × Trigger)) (job_id : String) : Option Trigger :=
  lookupA regs job_id

/-- Model of `JobManager._needs_update`: true when no row exists or the stored
`yaml_mtime` differs from the on-disk one. -/
def needs_update (jobs : List Job) (job_id : String) (mtime : Int) : Bool :=
  match lookupJob jobs job_id with
  | none => true
  | some j => !(j.yaml_mtime == mtime)

/-- The UPDATE branch of `register_job` applied to a row: every column the
SQL statement names is overwritten; `id`, `task`, `enabled` and
`created_at` are not named and keep their values. -/
def updated_row (now : Nat) (task : String) (cfg : JobConfig) (yaml_mtime : Int)
    (j : Job) : Job :=
  { j with
      name := cfg.name.getD task
      description := cfg.description.getD ("")
      schedule_type := cfg.schedule_type.getD ("interval")
      schedule_config := cfg.schedule_config
      entry_point := cfg.entry_point.getD ("main.py")
      timeout := cfg.timeout.getD 3600
      yaml_mtime := yaml_mtime
      updated_at := now }

/-- The INSERT branch of `register_job`: a fresh row with `enabled = 1` and
`created_at = updated_at = now`. -/
def new_row (now : Nat) (job_id : String) (cfg : JobConfig) (yaml_mtime : Int) : Job :=
  { id := job_id
    task := job_id
    name := cfg.name.getD job_id
    description := cfg.description.getD ("")
    schedule_type := cfg.schedule_type.getD ("interval")
    schedule_config := cfg.schedule_config
    entry_point := cfg.entry_point.getD ("main.py")
    timeout := cfg.timeout.getD 3600
    enabled := true
    yaml_mtime := yaml_mtime
    created_at := now
    updated_at := now }

/-- Model of `JobManager.register_job`: updates the existing row (leaving `enabled`,
`created_at`, and `task` untouched) or inserts a fresh one with
`enabled = 1`; then re-registers the trigger using the *stored* enabled
flag (the code re-reads it after the UPDATE).  The task name equals the
job id (`scan_jobs` sets `_task` to the directory name it uses as id). -/
def register_job (now : Nat) (job_id : String) (cfg : JobConfig) (yaml_mtime : Int)
    (s : EngineState) : EngineState :=
  let schedule_type := cfg.schedule_type.getD ("interval")
  match lookupJob s.jobs job_id with
  | some existing =>
      { s with
          jobs := s.jobs.map (fun j =>
            if j.id == job_id then updated_row now job_id cfg yaml_mtime j else j)
          regs := schedule_job_regs s.regs job_id schedule_type cfg.schedule_config
            existing.enabled }
  | none =>
      { s with
          jobs := s.jobs ++ [new_row now job_id cfg yaml_mtime]
          regs := schedule_job_regs s.regs job_id schedule_type cfg.schedule_config
            true }

/-- One iteration of the `scan_jobs` loop over a subdirectory: skip hidden
names, directories without `job.yaml`, unchanged manifests, and manifests
that fail to parse; otherwise register. -/
def scanStep (now : Nat) (st : EngineState) (e : DiskEntry) : EngineState :=
  if hiddenName e.1 then st
  else
    match e.2 with
    | none => st
    | some m =>
        if needs_update st.jobs e.1 m.mtime then
          match m.parsed with
          | none => st
          | some cfg => register_job now e.1 cfg m.mtime st
        else st

/-- The `found_job_ids` set built by `scan_jobs`: every non-hidden
subdirectory that has a `job.yaml` (added before parsing is attempted). -/
def scanFound (disk : List DiskEntry) : List String :=
  (disk.filter (fun e => !hiddenName e.1 && e.2.isSome)).map Prod.fst

/-- Model of `JobManager._remove_stale_jobs`: every stored job id not found on disk
has its row deleted and its scheduler registration removed
(`unregister_job`); registrations of ids with no job row are untouched. -/
def remove_stale_jobs (found : List String) (s : EngineState) : EngineState :=
  let stale := (s.jobs.map (fun j => j.id)).filter (fun i => !found.contains i)
  { s with
      jobs := s.jobs.filter (fun j => found.contains j.id)
      regs := s.regs.filter (fun r => !stale.contains r.1) }

/-- Model of `JobManager.scan_jobs`: fold the per-directory step over the (sorted)
listing, then drop stale jobs. -/
def scan_jobs (now : Nat) (disk : List DiskEntry) (s : EngineState) : EngineState :=
  remove_stale_jobs (scanFound disk) (disk.foldl (scanStep now) s)

/-- Insertion into a list ordered by decreasing run id (models
`ORDER BY r.id DESC`). -/
def insertRunDesc (r : Run) : List Run → List Run
  | [] => [r]
  | x :: xs => if x.run_id ≤ r.run_id then r :: x :: xs else x :: insertRunDesc r xs

/-- Sorts runs by decreasing run id. -/
def sortRunsDesc : List Run → List Run
  | [] => []
  | x :: xs => insertRunDesc x (sortRunsDesc xs)

/-- Model of `JobManager.get_runs`: filters by job id and status when those arguments
are truthy (Python `if job_id:` — `None` and the empty string both skip
the clause), orders by run id descending, limits, and LEFT-JOINs the job
name (NULL when the job row is gone). -/
def get_runs (runs : List Run) (jobs : List Job) (job_id : Option String)
    (status : Option String) (limit : Nat) : List (Run × Option String) :=
  let filtered := runs.filter (fun r =>
    (match job_id with
     | none => true
     | some s => s == ("") || r.job_id == s) &&
    (match status with
     | none => true
     | some s => s == ("") || r.status == s))
  ((sortRunsDesc filtered).take limit).map
    (fun r => (r, (lookupJob jobs r.job_id).map Job.name))

/-- Content of one file inside a task bundle: either bytes uploaded by the
operator or the `job.yaml` that `save_job_files` synthesizes with
`yaml.dump` from the supplied configuration fields. -/
inductive FileData where
  | uploaded (content : String)
  | generatedYaml (cfg : List (String × String))
deriving DecidableEq, Repr

/-- A task directory as a flat map from file name to content (the staging
bundles the code writes are flat: basenames of the uploads plus at most a
generated `job.yaml`). -/
abbrev Bundle := List (String × FileData)

/-- The updater-facing state of the manager: the live jobs directory, the
`.staging` quarantine directory, the in-memory `pending_updates` set, and
the per-job exclusivity locks (`True` = held).  `scan_jobs`, which
`process_pending_updates` calls last, touches none of these fields — it
reads the jobs directory and writes only the database and the scheduler —
so it does not appear in this state. -/
structure UpdState where
  jobsFs : List (String × Bundle)
  stagingFs : List (String × Bundle)
  pending : List String
  locks : List (String × Bool)
deriving DecidableEq, Repr

/-- Model of `JobManager.is_system_idle`: no per-job lock is currently held. -/
def is_system_idle (s : UpdState) : Bool :=
  s.locks.all (fun e => !e.2)

/-- Model of `shutil.copytree(staging_path, dest_path, dirs_exist_ok=True)` on flat
bundles: staged files overwrite like-named live files, other live files
survive (union-overwrite). -/
def mergeBundle (dst src : Bundle) : Bundle :=
  src.foldl (fun acc f => setAssoc acc f.1 f.2) dst

/-- The body of the `process_pending_updates` loop for one pending id: a
missing staged bundle is silently discarded from the pending set;
otherwise the bundle is merged over the live task directory
(`dest_path.mkdir` plus `copytree`), the staged bundle is removed
(`rmtree`), and the pending marker is cleared.  Filesystem operations are
assumed to succeed (the code logs and skips an id whose copy fails). -/
def applyUpdate (st : UpdState) (job_id : String) : UpdState :=
  match lookupA st.stagingFs job_id with
  | none => { st with pending := st.pending.erase job_id }
  | some bundle =>
      { st with
          jobsFs := setAssoc st.jobsFs job_id
            (mergeBundle ((lookupA st.jobsFs job_id).getD []) bundle)
          stagingFs := removeA st.stagingFs job_id
          pending := st.pending.erase job_id }

/-- Model of `JobManager.process_pending_updates`: returns immediately when nothing
is pending or when any job lock is held; otherwise iterates over a
snapshot of the pending set.  (The trailing `scan_jobs` call leaves every
field of this state unchanged.) -/
def process_pending_updates (s : UpdState) : UpdState :=
  if s.pending.isEmpty then s
  else if !is_system_idle s then s
  else s.pending.foldl applyUpdate s

/-- One uploaded file as the Flask layer hands it over: its client-supplied
filename and its content. -/
structure UploadFile where
  filename : String
  content : String
deriving DecidableEq, Repr

/-- The sanitization in `JobManager.save_job_files`: keep only
alphanumerics, hyphen and underscore. -/
def sanitizeTask (task : String) : String :=
  String.mk (task.data.filter (fun c => c.isAlphanum || c == '-' || c == '_'))

/-- Model of `Path(filename).name`: the last kept path component (empty and
single-dot components are dropped by pathlib). -/
def basenameOf (s : String) : String :=
  (pathSegs s).getLastD ("")

/-- The exact collision message raised by `save_job_files`. -/
def collisionMsg (t : String) : String :=
  ("Job with name '") ++ t ++ ("' already exists. Please use a different name or edit the existing job.")

/-- Model of `JobManager.save_job_files`: sanitizes the task name, raises on an empty
result, raises when the live task directory exists *and* no staged bundle
for that name exists, then writes the uploads (skipping files with empty
names, keyed by basename, later uploads overwriting earlier ones of the
same name) into a freshly recreated staging bundle, synthesizes a
`job.yaml` when none was uploaded and a non-empty configuration was
supplied, and finally records the id as pending.  An error is raised
before any filesystem or pending-set mutation, so the error branches
return no state. -/
def save_job_files (s : UpdState) (task : String) (files : List UploadFile)
    (job_config : Option (List (String × String))) : Except String UpdState :=
  let t := sanitizeTask task
  if t == ("") then Except.error ("Invalid task name")
  else if (lookupA s.jobsFs t).isSome && !(lookupA s.stagingFs t).isSome then
    Except.error (collisionMsg t)
  else
    let saved := files.foldl
      (fun (acc : Bundle × Bool) f =>
        if f.filename == ("") then acc
        else
          let fname := basenameOf f.filename
          (setAssoc acc.1 fname (FileData.uploaded f.content),
           acc.2 || fname == ("job.yaml")))
      ([], false)
    let bundle :=
      if !saved.2 then
        match job_config with
        | some cfg =>
            if cfg.isEmpty then saved.1
            else setAssoc saved.1 ("job.yaml") (FileData.generatedYaml cfg)
        | none => saved.1
      else saved.1
    Except.ok
      { s with
          stagingFs := setAssoc s.stagingFs t bundle
          pending := if s.pending.contains t then s.pending else s.pending ++ [t] }

/-- Whether a `save_job_files` call succeeded (did not raise). -/
def saveOk (r : Except String UpdState) : Bool :=
  match r with
  | Except.ok _ => true
  | Except.error _ => false

/-- A sample parsed manifest used by concrete witnesses. -/
def sampleCfg : JobConfig :=
  { name := some ("ETL")
    description := none
    schedule_type := some ("interval")
    schedule_config := [(("minutes"), 5)]
    entry_point := none
    timeout := none }

/-- A sample jobs-directory listing with one task whose manifest parses. -/
def sampleDisk : List DiskEntry :=
  [(("etl"), some { mtime := 7, parsed := some sampleCfg })]

theorem find?_filter_imp {α : Type} (p q : α → Bool) (l : List α)
    (h : ∀ x, p x = true → q x = true) : (l.filter q).find? p = l.find? p := by
  induction l with
  | nil => rfl
  | cons a t ih =>
      cases hq : q a with
      | true =>
          cases hp : p a with
          | true => simp [List.filter_cons, hq, List.find?_cons, hp]
          | false => simp [List.filter_cons, hq, List.find?_cons, hp, ih]
      | false =>
          cases hp : p a with
          | true => exact absurd (h a hp) (by simp [hq])
          | false => simp [List.filter_cons, hq, List.find?_cons, hp, ih]

theorem find?_filter_none {α : Type} (p q : α → Bool) (l : List α)
    (h : ∀ x, p x = true → q x = false) : (l.filter q).find? p = none := by
  induction l with
  | nil => rfl
  | cons a t ih =>
      cases hq : q a with
      | true =>
          cases hp : p a with
          | true => exact absurd (h a hp) (by simp [hq])
          | false => simp [List.filter_cons, hq, List.find?_cons, hp, ih]
      | false => simp [List.filter_cons, hq, ih]

theorem find?_append_none {α : Type} (p : α → Bool) (l₁ l₂ : List α)
    (h : l₁.find? p = none) : (l₁ ++ l₂).find? p = l₂.find? p := by
  induction l₁ with
  | nil => rfl
  | cons a t ih =>
      cases hp : p a with
      | true => rw [List.find?_cons_of_pos _ hp] at h; exact absurd h (by simp)
      | false =>
          rw [List.find?_cons_of_neg _ (by simp [hp])] at h
          simp only [List.cons_append, List.find?_cons_of_neg _ (by simp [hp] : ¬p a = true)]
          exact ih h

theorem find?_append_some {α : Type} (p : α → Bool) (l₁ l₂ : List α) (a : α)
    (h : l₁.find? p = some a) : (l₁ ++ l₂).find? p = some a := by
  induction l₁ with
  | nil => simp [List.find?] at h
  | cons b t ih =>
      cases hp : p b with
      | true =>
          rw [List.find?_cons_of_pos _ hp] at h
          simp only [List.cons_append, List.find?_cons_of_pos _ hp]
          exact h
      | false =>
          rw [List.find?_cons_of_neg _ (by simp [hp])] at h
          simp only [List.cons_append, List.find?_cons_of_neg _ (by simp [hp] : ¬p b = true)]
          exact ih h

theorem lookupA_setAssoc_self {α : Type} (l : List (String × α)) (k : String) (v : α) :
    lookupA (setAssoc l k v) k = some v := by
  unfold lookupA setAssoc
  rw [find?_append_none]
  · simp [List.find?]
  · exact find?_filter_none _ _ _ (fun x hx => by
      cases hk : x.1 == k with
      | true => simp at hx; simp [hx] at hk; simp [hk]
      | false => simp [hk] at hx)

theorem lookupA_setAssoc_ne {α : Type} (l : List (String × α)) (k i : String) (v : α)
    (h : ¬i = k) : lookupA (setAssoc l k v) i = lookupA l i := by
  unfold lookupA setAssoc
  have hfilter : (l.filter (fun e => !(e.1 == k))).find? (fun e => e.1 == i) =
      l.find? (fun e => e.1 == i) := by
    apply find?_filter_imp
    intro x hx
    simp at hx
    simp [hx]
    exact h
  have hki : (k == i) = false := by
    simp
    exact fun hk => h hk.symm
  cases hfind : l.find? (fun e => e.1 == i) with
  | some e => rw [find?_append_some _ _ _ _ (hfilter.trans hfind)]
  | none =>
      rw [find?_append_none _ _ _ (hfilter.trans hfind)]
      simp [List.find?, hki]

theorem lookupA_removeA_self {α : Type} (l : List (String × α)) (k : String) :
    lookupA (removeA l k) k = none := by
  unfold lookupA removeA
  rw [find?_filter_none]
  · rfl
  · intro x hx
    simp at hx
    simp [hx]

theorem lookupA_removeA_ne {α : Type} (l : List (String × α)) (k i : String)
    (h : ¬i = k) : lookupA (removeA l k) i = lookupA l i := by
  unfold lookupA removeA
  rw [find?_filter_imp]
  intro x hx
  simp at hx
  simp [hx]
  exact h

/-- C1: counterexample.  A row left `running` by a crash has a NULL
`duration_seconds` (the insert path creates it that way); the startup
crash-recovery UPDATE moves it to the terminal status `failed` and sets
`finished_at`, but names no duration column — so the resulting table
contains a terminal run whose duration is NULL, contradicting the claim. -/
theorem cleanup_stale_runs_null_duration :
    ((cleanup_stale_runs 200
        [insert_run 1 ("daily-report") 100 ("daily-report/20240101_000000.log")]).all
      terminal_fields_ok) = false := by
  decide

/-- C1 (amended): a run finalized by the normal `_run_job` path always
receives a non-null finish timestamp and a non-null duration; a run
reclassified from `running` to `failed` by the startup crash-recovery
routine receives a non-null finish timestamp, but its duration column is
left unchanged — NULL for rows created by the insert path — so
crash-recovered runs are terminal with a NULL duration. -/
theorem terminal_run_fields_amended (now : Nat) (runs : List Run) (r : Run)
    (timeout : Nat) (pr : ProcResult) (fin : Nat) (rid : Nat) (jid lp : String)
    (st : Nat) (hmem : r ∈ runs) (hrun : r.status = ("running")) :
    crash_recovered now r ∈ cleanup_stale_runs now runs ∧
    (crash_recovered now r).finished_at = some now ∧
    (crash_recovered now r).duration_seconds = r.duration_seconds ∧
    (finalized_run r timeout pr fin).finished_at = some fin ∧
    (finalized_run r timeout pr fin).duration_seconds.isSome = true ∧
    (insert_run rid jid st lp).duration_seconds = none ∧
    (insert_run rid jid st lp).finished_at = none := by
  refine ⟨?_, rfl, rfl, rfl, rfl, rfl, rfl⟩
  unfold cleanup_stale_runs
  exact List.mem_map.mpr ⟨r, hmem, by simp [hrun, crash_recovered]⟩

theorem terminal_run_fields_amended_witness :
    crash_recovered 200 (insert_run 1 ("etl") 100 ("etl/a.log")) ∈
      cleanup_stale_runs 200 [insert_run 1 ("etl") 100 ("etl/a.log")] ∧
    (crash_recovered 200 (insert_run 1 ("etl") 100 ("etl/a.log"))).finished_at = some 200 ∧
    (crash_recovered 200 (insert_run 1 ("etl") 100 ("etl/a.log"))).duration_seconds =
      (insert_run 1 ("etl") 100 ("etl/a.log")).duration_seconds ∧
    (finalized_run (insert_run 1 ("etl") 100 ("etl/a.log")) 60 ProcResult.timedOut 150).finished_at = some 150 ∧
    (finalized_run (insert_run 1 ("etl") 100 ("etl/a.log")) 60 ProcResult.timedOut 150).duration_seconds.isSome = true ∧
    (insert_run 2 ("etl") 300 ("etl/b.log")).duration_seconds = none ∧
    (insert_run 2 ("etl") 300 ("etl/b.log")).finished_at = none :=
  terminal_run_fields_amended 200 [insert_run 1 ("etl") 100 ("etl/a.log")]
    (insert_run 1 ("etl") 100 ("etl/a.log")) 60 ProcResult.timedOut 150 2 ("etl")
    ("etl/b.log") 300 (by decide) (by decide)

/-- C2: counterexample.  The request path `../logs-old/secret.log` resolves
to `/srv/app/logs-old/secret.log`, outside the logs root `/srv/app/logs`,
yet `get_log_content` returns the file's content: the guard is a plain
string-prefix test and the sibling directory's name extends the root's. -/
theorem get_log_content_sibling_escape :
    path_within ("/srv/app/logs")
        (resolvedTarget ("/srv/app/logs") ("../logs-old/secret.log")) = false ∧
    get_log_content [(("/srv/app/logs-old/secret.log"), ("SECRET"))]
        ("/srv/app/logs") ("../logs-old/secret.log") = some ("SECRET") := by
  decide

/-- C2 (amended): `get_log_content` returns the not-found result for every
input path whose resolved absolute rendering does not start with the
resolved logs root's rendering as a string prefix — this covers `..`
traversal such as `../../etc/passwd` and absolute paths — but the test is
a bare string prefix, so a sibling directory whose name extends the
root's final component is (incorrectly) accepted. -/
theorem get_log_content_string_prefix_guard (fs : List (String × String))
    (logs_dir log_path : String)
    (h : strPrefixOf (resolvedRoot logs_dir) (resolvedTarget logs_dir log_path) = false) :
    get_log_content fs logs_dir log_path = none := by
  unfold get_log_content
  simp [h]

theorem get_log_content_string_prefix_guard_witness :
    strPrefixOf (resolvedRoot ("/srv/app/logs"))
        (resolvedTarget ("/srv/app/logs") ("../../../../etc/passwd")) = false ∧
    get_log_content [(("/etc/passwd"), ("root:x"))] ("/srv/app/logs")
        ("../../../../etc/passwd") = none :=
  ⟨by decide,
   get_log_content_string_prefix_guard [(("/etc/passwd"), ("root:x"))]
     ("/srv/app/logs") ("../../../../etc/passwd") (by decide)⟩

/-- C4: counterexample.  An interval schedule specifying only `days: 2` is
registered with the extra default `hours = 1` — the guard checks only
`seconds`, `minutes` and `hours` — so the trigger period is 176400 s
(2 days + 1 hour), not the configured 172800 s (2 days). -/
theorem schedule_interval_days_extra_hour :
    lookupReg (schedule_job_regs [] ("nightly") ("interval") [(("days"), 2)] true)
        ("nightly") =
      some { kind := ("interval"), kwargs := [(("days"), 2), (("hours"), 1)] } ∧
    interval_trigger_seconds
        ((trigger_of ("interval") [(("days"), 2)]).kwargs) = 176400 ∧
    interval_trigger_seconds [(("days"), 2)] = 172800 := by
  decide

/-- C4 (amended): for an interval-scheduled job the trigger keyword set is
exactly the configured one whenever any of `seconds`, `minutes`, `hours`
is specified; when none of those three is specified the hourly default
`hours = 1` is appended — including when `days` alone is specified, which
therefore yields the configured days plus one extra hour rather than
exactly the configured period.  The enabled job is always registered with
the trigger so computed. -/
theorem schedule_interval_default_amended (cfg : List (String × Nat))
    (regs : List (String × Trigger)) (id stype : String) :
    (((lookupA cfg ("seconds")).isSome || (lookupA cfg ("minutes")).isSome ||
        (lookupA cfg ("hours")).isSome) = true →
      schedule_interval_kwargs cfg = cfg) ∧
    (((lookupA cfg ("seconds")).isSome || (lookupA cfg ("minutes")).isSome ||
        (lookupA cfg ("hours")).isSome) = false →
      schedule_interval_kwargs cfg = cfg ++ [(("hours"), 1)]) ∧
    lookupReg (schedule_job_regs regs id stype cfg true) id =
      some (trigger_of stype cfg) := by
  refine ⟨?_, ?_, ?_⟩
  · intro h
    cases hs : lookupA cfg ("seconds") <;> cases hm : lookupA cfg ("minutes") <;>
      cases hh : lookupA cfg ("hours") <;>
      simp [hs, hm, hh] at h ⊢ <;> simp [schedule_interval_kwargs, hs, hm, hh]
  · intro h
    cases hs : lookupA cfg ("seconds") <;> cases hm : lookupA cfg ("minutes") <;>
      cases hh : lookupA cfg ("hours") <;>
      simp [hs, hm, hh] at h ⊢ <;> simp [schedule_interval_kwargs, hs, hm, hh]
  · unfold schedule_job_regs lookupReg lookupA
    simp only [Bool.not_true, Bool.false_eq_true, if_false]
    rw [find?_append_none]
    · simp [List.find?]
    · exact find?_filter_none _ _ _ (fun x hx => by
        simp at hx
        simp [hx])

theorem schedule_interval_default_amended_witness :
    (((lookupA [(("days"), (2 : Nat))] ("seconds")).isSome ||
        (lookupA [(("days"), (2 : Nat))] ("minutes")).isSome ||
        (lookupA [(("days"), (2 : Nat))] ("hours")).isSome) = false →
      schedule_interval_kwargs [(("days"), 2)] = [(("days"), 2)] ++ [(("hours"), 1)]) ∧
    lookupReg (schedule_job_regs [] ("nightly") ("interval") [(("days"), 2)] true)
        ("nightly") = some (trigger_of ("interval") [(("days"), 2)]) :=
  ⟨(schedule_interval_default_amended [(("days"), 2)] [] ("nightly") ("interval")).2.1,
   (schedule_interval_default_amended [(("days"), 2)] [] ("nightly") ("interval")).2.2⟩

/-- C5: counterexample.  When the sanitized name exists both as a live job
directory and as a staged bundle, `save_job_files` does not raise — the
guard requires the staged bundle to be absent — and it rewrites the
staging area and pending set. -/
theorem save_job_files_staged_collision_ok :
    saveOk (save_job_files
      { jobsFs := [(("etl"), [])], stagingFs := [(("etl"), [])],
        pending := [], locks := [] }
      ("etl") [{ filename := ("main.py"), content := ("pass") }] none) = true ∧
    save_job_files
      { jobsFs := [(("etl"), [])], stagingFs := [(("etl"), [])],
        pending := [], locks := [] }
      ("etl") [{ filename := ("main.py"), content := ("pass") }] none =
    Except.ok
      { jobsFs := [(("etl"), [])],
        stagingFs := [(("etl"), [(("main.py"), FileData.uploaded ("pass"))])],
        pending := [("etl")], locks := [] } := by
  exact ⟨by decide, rfl⟩

/-- C5 (amended): `save_job_files` raises a validation error when
sanitization (keeping only alphanumerics, hyphen, underscore) yields an
empty name, and when the sanitized name names an existing live job
directory *for which no staged bundle currently exists*; in both cases it
raises before touching the staging area or the pending set (the error
branches return no new state).  A name that exists live but is also
already staged is accepted and re-staged. -/
theorem save_job_files_validation_amended (s : UpdState) (task : String)
    (files : List UploadFile) (cfgo : Option (List (String × String))) :
    (sanitizeTask task = ("") →
      save_job_files s task files cfgo = Except.error ("Invalid task name")) ∧
    (¬sanitizeTask task = ("") →
      (lookupA s.jobsFs (sanitizeTask task)).isSome = true →
      lookupA s.stagingFs (sanitizeTask task) = none →
      save_job_files s task files cfgo =
        Except.error (collisionMsg (sanitizeTask task))) := by
  constructor
  · intro h
    unfold save_job_files
    simp [h]
  · intro h1 h2 h3
    unfold save_job_files
    simp [h1, h2, h3]

theorem save_job_files_validation_amended_witness :
    (save_job_files
      { jobsFs := [], stagingFs := [], pending := [], locks := [] }
      ("@@@") [{ filename := ("main.py"), content := ("pass") }] none =
        Except.error ("Invalid task name")) ∧
    (save_job_files
      { jobsFs := [(("etl"), [])], stagingFs := [], pending := [], locks := [] }
      ("etl") [{ filename := ("main.py"), content := ("pass") }] none =
        Except.error (collisionMsg ("etl"))) :=
  ⟨(save_job_files_validation_amended
      { jobsFs := [], stagingFs := [], pending := [], locks := [] }
      ("@@@") [{ filename := ("main.py"), content := ("pass") }] none).1 (by decide),
   (save_job_files_validation_amended
      { jobsFs := [(("etl"), [])], stagingFs := [], pending := [], locks := [] }
      ("etl") [{ filename := ("main.py"), content := ("pass") }] none).2
     (by decide) (by decide) (by decide)⟩

/-- C6: after a normal subprocess exit the finalized Run row has status
`success` exactly when the exit code is zero; otherwise it is `failed`
and its error message is the first 500 characters of the captured stderr,
or of stdout when stderr is empty (the empty string when both are). -/
theorem run_outcome_exit_code_spec (runs : List Run) (rid timeout : Nat) (rc : Int)
    (out err : String) (fin : Nat) :
    ∀ r' ∈ finalize_runs runs rid timeout (ProcResult.completed rc out err) fin,
      r'.run_id = rid →
      ((r'.status = ("success")) ↔ rc = 0) ∧
      (¬rc = 0 → r'.status = ("failed") ∧
        r'.error_message = some (takeChars (if err = ("") then out else err) 500)) := by
  intro r' hmem hrid
  rcases List.mem_map.mp hmem with ⟨r, hr, heq⟩
  by_cases hid : (r.run_id == rid) = true
  · rw [if_pos hid] at heq
    subst heq
    unfold finalized_run run_outcome
    by_cases hrc : rc = 0
    · simp [hrc]
    · have hrcb : (rc == 0) = false := by simp [hrc]
      simp [hrcb, hrc]
      unfold pyOrS
      by_cases he : err = ("")
      · by_cases ho : out = ("")
        · simp [he, ho]
        · simp [he, ho]
      · simp [he]
  · rw [if_neg hid] at heq
    subst heq
    exact absurd (by simp [hrid] : (r.run_id == rid) = true) hid

theorem run_outcome_exit_code_spec_witness :
    (((finalized_run (insert_run 7 ("etl") 100 ("etl/x.log")) 60
          (ProcResult.completed 2 ("")
            ("boom")) 160).status = ("success")) ↔ (2 : Int) = 0) ∧
    (¬(2 : Int) = 0 →
      (finalized_run (insert_run 7 ("etl") 100 ("etl/x.log")) 60
          (ProcResult.completed 2 ("") ("boom")) 160).status = ("failed") ∧
      (finalized_run (insert_run 7 ("etl") 100 ("etl/x.log")) 60
          (ProcResult.completed 2 ("") ("boom")) 160).error_message =
        some (takeChars (if ("boom") = ("") then ("") else ("boom")) 500)) :=
  run_outcome_exit_code_spec [insert_run 7 ("etl") 100 ("etl/x.log")] 7 60 2
    ("") ("boom") 160
    (finalized_run (insert_run 7 ("etl") 100 ("etl/x.log")) 60
      (ProcResult.completed 2 ("") ("boom")) 160)
    (by decide) (by decide)

theorem applyUpdate_preserve (st : UpdState) (j id : String) (hne : ¬id = j) :
    lookupA (applyUpdate st j).jobsFs id = lookupA st.jobsFs id ∧
    lookupA (applyUpdate st j).stagingFs id = lookupA st.stagingFs id := by
  unfold applyUpdate
  cases h : lookupA st.stagingFs j with
  | none => exact ⟨rfl, rfl⟩
  | some b =>
      exact ⟨lookupA_setAssoc_ne _ _ _ _ hne, lookupA_removeA_ne _ _ _ hne⟩

theorem applyUpdate_keeps (st : UpdState) (j id : String) (v : Bundle)
    (h1 : lookupA st.jobsFs id = some v)
    (h2 : lookupA st.stagingFs id = none)
    (h3 : id ∉ st.pending) :
    lookupA (applyUpdate st j).jobsFs id = some v ∧
    lookupA (applyUpdate st j).stagingFs id = none ∧
    id ∉ (applyUpdate st j).pending := by
  by_cases hj : id = j
  · subst hj
    unfold applyUpdate
    rw [h2]
    exact ⟨h1, h2, fun hc => h3 (List.mem_of_mem_erase hc)⟩
  · unfold applyUpdate
    cases hs : lookupA st.stagingFs j with
    | none => exact ⟨h1, h2, fun hc => h3 (List.mem_of_mem_erase hc)⟩
    | some b =>
        refine ⟨?_, ?_, fun hc => h3 (List.mem_of_mem_erase hc)⟩
        · rw [lookupA_setAssoc_ne _ _ _ _ hj]
          exact h1
        · rw [lookupA_removeA_ne _ _ _ hj]
          exact h2

theorem applyUpdate_pending_nodup (st : UpdState) (j : String)
    (h : st.pending.Nodup) : (applyUpdate st j).pending.Nodup := by
  unfold applyUpdate
  cases lookupA st.stagingFs j with
  | none => exact h.erase j
  | some b => exact h.erase j

theorem foldl_applyUpdate_keeps (l : List String) (st : UpdState) (id : String)
    (v : Bundle) (h1 : lookupA st.jobsFs id = some v)
    (h2 : lookupA st.stagingFs id = none) (h3 : id ∉ st.pending) :
    lookupA (l.foldl applyUpdate st).jobsFs id = some v ∧
    lookupA (l.foldl applyUpdate st).stagingFs id = none ∧
    id ∉ (l.foldl applyUpdate st).pending := by
  induction l generalizing st with
  | nil => exact ⟨h1, h2, h3⟩
  | cons j t ih =>
      rcases applyUpdate_keeps st j id v h1 h2 h3 with ⟨k1, k2, k3⟩
      exact ih (applyUpdate st j) k1 k2 k3

theorem foldl_applyUpdate_preserve (l : List String) (st : UpdState) (id : String)
    (hl : ∀ j ∈ l, ¬id = j) :
    lookupA (l.foldl applyUpdate st).jobsFs id = lookupA st.jobsFs id ∧
    lookupA (l.foldl applyUpdate st).stagingFs id = lookupA st.stagingFs id := by
  induction l generalizing st with
  | nil => exact ⟨rfl, rfl⟩
  | cons j t ih =>
      rcases applyUpdate_preserve st j id (hl j (by simp)) with ⟨p1, p2⟩
      rcases ih (applyUpdate st j) (fun x hx => hl x (by simp [hx])) with ⟨q1, q2⟩
      exact ⟨q1.trans p1, q2.trans p2⟩

theorem foldl_applyUpdate_pending_nodup (l : List String) (st : UpdState)
    (h : st.pending.Nodup) : (l.foldl applyUpdate st).pending.Nodup := by
  induction l generalizing st with
  | nil => exact h
  | cons j t ih => exact ih (applyUpdate st j) (applyUpdate_pending_nodup st j h)

/-- C3: while any per-job exclusivity lock is held, `process_pending_updates`
returns with the live jobs directory, the staging directory, the pending
set (indeed the entire state) unchanged; when the system is idle and a
pending identifier's staged bundle exists, that bundle is merged over the
live task directory (union-overwrite), the staged bundle is deleted, and
the pending marker is cleared. -/
theorem process_pending_updates_idle_gate (s : UpdState) (id : String) (b : Bundle) :
    (is_system_idle s = false → process_pending_updates s = s) ∧
    (is_system_idle s = true → s.pending.Nodup → id ∈ s.pending →
      lookupA s.stagingFs id = some b →
      lookupA (process_pending_updates s).jobsFs id =
        some (mergeBundle ((lookupA s.jobsFs id).getD []) b) ∧
      lookupA (process_pending_updates s).stagingFs id = none ∧
      id ∉ (process_pending_updates s).pending) := by
  constructor
  · intro h
    unfold process_pending_updates
    by_cases he : s.pending.isEmpty
    · simp [he]
    · simp [he, h]
  · intro hidle hnd hmem hstage
    have hne : s.pending.isEmpty = false := by
      cases hp : s.pending with
      | nil => rw [hp] at hmem; exact absurd hmem (by simp)
      | cons a t => simp [hp]
    have hunf : process_pending_updates s = s.pending.foldl applyUpdate s := by
      unfold process_pending_updates
      simp [hne, hidle]
    rw [hunf]
    rcases List.append_of_mem hmem with ⟨l₁, l₂, hsplit⟩
    have hndm : id ∉ l₁ ++ l₂ := by
      have := hsplit ▸ hnd
      exact (List.nodup_cons.mp (List.nodup_middle.mp this)).1
    have hid1 : ∀ j ∈ l₁, ¬id = j := fun j hj heq =>
      hndm (by simp [heq ▸ hj])
    have hid2 : id ∉ l₂ := fun hj => hndm (by simp [hj])
    rw [hsplit, List.foldl_append]
    have hfold1 := foldl_applyUpdate_preserve l₁ s id hid1
    have hnd1 : (l₁.foldl applyUpdate s).pending.Nodup :=
      foldl_applyUpdate_pending_nodup l₁ s hnd
    rw [List.foldl_cons]
    set st₁ := l₁.foldl applyUpdate s with hst₁
    have hstage1 : lookupA st₁.stagingFs id = some b := hfold1.2.trans hstage
    have hjobs1 : lookupA st₁.jobsFs id = lookupA s.jobsFs id := hfold1.1
    have hstep : applyUpdate st₁ id =
        { st₁ with
            jobsFs := setAssoc st₁.jobsFs id
              (mergeBundle ((lookupA st₁.jobsFs id).getD []) b)
            stagingFs := removeA st₁.stagingFs id
            pending := st₁.pending.erase id } := by
      unfold applyUpdate
      rw [hstage1]
    rw [hstep]
    apply foldl_applyUpdate_keeps
    · rw [lookupA_setAssoc_self, hjobs1]
    · exact lookupA_removeA_self _ _
    · exact hnd1.not_mem_erase  -- check exact form

theorem process_pending_updates_idle_gate_witness :
    (is_system_idle
        { jobsFs := [], stagingFs := [], pending := [("etl")],
          locks := [(("etl"), true)] } = false →
      process_pending_updates
        { jobsFs := [], stagingFs := [], pending := [("etl")],
          locks := [(("etl"), true)] } =
        { jobsFs := [], stagingFs := [], pending := [("etl")],
          locks := [(("etl"), true)] }) ∧
    (lookupA (process_pending_updates
        { jobsFs := [(("etl"), [(("main.py"), FileData.uploaded ("old"))])],
          stagingFs := [(("etl"), [(("main.py"), FileData.uploaded ("new"))])],
          pending := [("etl")], locks := [(("etl"), false)] }).jobsFs ("etl") =
      some (mergeBundle ((lookupA
        [(("etl"), [(("main.py"), FileData.uploaded ("old"))])] ("etl")).getD [])
        [(("main.py"), FileData.uploaded ("new"))]) ∧
     lookupA (process_pending_updates
        { jobsFs := [(("etl"), [(("main.py"), FileData.uploaded ("old"))])],
          stagingFs := [(("etl"), [(("main.py"), FileData.uploaded ("new"))])],
          pending := [("etl")], locks := [(("etl"), false)] }).stagingFs ("etl") = none ∧
     ("etl") ∉ (process_pending_updates
        { jobsFs := [(("etl"), [(("main.py"), FileData.uploaded ("old"))])],
          stagingFs := [(("etl"), [(("main.py"), FileData.uploaded ("new"))])],
          pending := [("etl")], locks := [(("etl"), false)] }).pending) :=
  ⟨(process_pending_updates_idle_gate
      { jobsFs := [], stagingFs := [], pending := [("etl")],
        locks := [(("etl"), true)] } ("etl") []).1,
   (process_pending_updates_idle_gate
      { jobsFs := [(("etl"), [(("main.py"), FileData.uploaded ("old"))])],
        stagingFs := [(("etl"), [(("main.py"), FileData.uploaded ("new"))])],
        pending := [("etl")], locks := [(("etl"), false)] } ("etl")
      [(("main.py"), FileData.uploaded ("new"))]).2
     (by decide) (by decide) (by decide) (by decide)⟩


/-- C7: retention cleanup deletes exactly the run rows whose start timestamp
is strictly older than the cutoff (a row exactly at the cutoff is kept);
only log files belonging to such rows, and only those whose unlink
succeeds, disappear; and the row deletion is the same whatever the unlink
oracle says, so a file-deletion failure never prevents row deletion. -/
theorem cleanup_old_logs_retention_spec (cutoff : Nat) (runs : List Run)
    (fs : List String) (ok ok' : String → Bool) (r : Run) (p : String) :
    (r ∈ runs → (r ∈ (cleanup_old_logs cutoff runs fs ok).1 ↔ cutoff ≤ r.started_at)) ∧
    (r ∈ runs → r.started_at = cutoff → r ∈ (cleanup_old_logs cutoff runs fs ok).1) ∧
    (p ∈ fs → p ∉ (cleanup_old_logs cutoff runs fs ok).2 →
      p ∈ oldLogPaths cutoff runs ∧ ok p = true) ∧
    (p ∈ fs → p ∈ oldLogPaths cutoff runs → ok p = true →
      p ∉ (cleanup_old_logs cutoff runs fs ok).2) ∧
    (cleanup_old_logs cutoff runs fs ok).1 = (cleanup_old_logs cutoff runs fs ok').1 := by
  refine ⟨?_, ?_, ?_, ?_, rfl⟩
  · intro hr
    unfold cleanup_old_logs
    simp [hr, Nat.not_lt]
  · intro hr hcut
    unfold cleanup_old_logs
    simp [hr, Nat.not_lt, hcut]
  · intro hp hnot
    unfold cleanup_old_logs at hnot
    simp [hp] at hnot
    rcases hnot with ⟨h1, h2⟩
    exact ⟨h1, h2⟩
  · intro hp hold hok
    unfold cleanup_old_logs
    simp [hp, hold, hok]

theorem cleanup_old_logs_retention_spec_witness :
    (insert_run 1 ("etl") 500 ("etl/a.log") ∈
        (cleanup_old_logs 500
          [insert_run 1 ("etl") 500 ("etl/a.log"),
           insert_run 2 ("etl") 400 ("etl/b.log")]
          [("etl/a.log"), ("etl/b.log")] (fun x => x == ("etl/b.log"))).1 ↔
      500 ≤ (insert_run 1 ("etl") 500 ("etl/a.log")).started_at) ∧
    (("etl/b.log") ∈ oldLogPaths 500
        [insert_run 1 ("etl") 500 ("etl/a.log"),
         insert_run 2 ("etl") 400 ("etl/b.log")] →
      (fun x => x == ("etl/b.log")) ("etl/b.log") = true →
      ("etl/b.log") ∉
        (cleanup_old_logs 500
          [insert_run 1 ("etl") 500 ("etl/a.log"),
           insert_run 2 ("etl") 400 ("etl/b.log")]
          [("etl/a.log"), ("etl/b.log")] (fun x => x == ("etl/b.log"))).2) :=
  ⟨(cleanup_old_logs_retention_spec 500
      [insert_run 1 ("etl") 500 ("etl/a.log"), insert_run 2 ("etl") 400 ("etl/b.log")]
      [("etl/a.log"), ("etl/b.log")] (fun x => x == ("etl/b.log"))
      (fun _ => false) (insert_run 1 ("etl") 500 ("etl/a.log")) ("etl/b.log")).1
     (by decide),
   fun hold hok =>
    (cleanup_old_logs_retention_spec 500
      [insert_run 1 ("etl") 500 ("etl/a.log"), insert_run 2 ("etl") 400 ("etl/b.log")]
      [("etl/a.log"), ("etl/b.log")] (fun x => x == ("etl/b.log"))
      (fun _ => false) (insert_run 1 ("etl") 500 ("etl/a.log")) ("etl/b.log")).2.2.2.1
     (by decide) hold hok⟩

theorem contains_eq_true {l : List String} {a : String} :
    l.contains a = true ↔ a ∈ l := by
  simp [List.contains, List.elem_iff]

theorem lookupA_append_ne {α : Type} (l : List (String × α)) (k i : String) (v : α)
    (h : ¬i = k) : lookupA (l ++ [(k, v)]) i = lookupA l i := by
  unfold lookupA
  have hki : (k == i) = false := by
    simp
    exact fun hk => h hk.symm
  cases hf : l.find? (fun e => e.1 == i) with
  | some e => rw [find?_append_some _ _ _ _ hf]
  | none =>
      rw [find?_append_none _ _ _ hf]
      simp [List.find?, hki]

theorem schedule_job_regs_eq (regs : List (String × Trigger)) (jid stype : String)
    (cfg : List (String × Nat)) (en : Bool) :
    schedule_job_regs regs jid stype cfg en =
      if en then setAssoc regs jid (trigger_of stype cfg) else removeA regs jid := by
  unfold schedule_job_regs setAssoc removeA
  cases en <;> simp

theorem lookupJob_map_update (l : List Job) (id i : String) (g : Job → Job)
    (hg : ∀ j, (g j).id = j.id) :
    lookupJob (l.map (fun j => if j.id == id then g j else j)) i =
      (lookupJob l i).map (fun x => if x.id == id then g x else x) := by
  induction l with
  | nil => rfl
  | cons a t ih =>
      have hpa : ((if a.id == id then g a else a).id == i) = (a.id == i) := by
        by_cases ha : (a.id == id) = true
        · rw [if_pos ha, hg a]
        · rw [if_neg ha]
      unfold lookupJob at ih ⊢
      simp only [List.map_cons, List.find?, hpa]
      cases hi : (a.id == i) with
      | true => simp
      | false => exact ih

theorem lookupJob_some_id {jobs : List Job} {i : String} {x : Job}
    (h : lookupJob jobs i = some x) : (x.id == i) = true := by
  unfold lookupJob at h
  have hx := List.find?_some h
  exact hx

theorem needs_update_false (jobs : List Job) (i : String) (mt : Int)
    (h : needs_update jobs i mt = false) :
    ∃ j, lookupJob jobs i = some j ∧ j.yaml_mtime = mt := by
  unfold needs_update at h
  cases hl : lookupJob jobs i with
  | none => rw [hl] at h; exact absurd h (by simp)
  | some j =>
      rw [hl] at h
      simp at h
      exact ⟨j, rfl, h⟩

theorem nodup_keys_eq {α : Type} (l : List (String × α))
    (hnd : (l.map Prod.fst).Nodup) (k : String) (a b : α)
    (ha : (k, a) ∈ l) (hb : (k, b) ∈ l) : a = b := by
  induction l with
  | nil => exact absurd ha (by simp)
  | cons e t ih =>
      have hhead : e.1 ∉ t.map Prod.fst := by
        have := hnd
        simp only [List.map_cons, List.nodup_cons] at this
        exact this.1
      rcases List.mem_cons.mp ha with ha' | ha'
      · rcases List.mem_cons.mp hb with hb' | hb'
        · rw [← hb'] at ha'
          exact (Prod.ext_iff.mp ha').2
        · exfalso
          apply hhead
          rw [← ha']
          exact List.mem_map.mpr ⟨(k, b), hb', rfl⟩
      · rcases List.mem_cons.mp hb with hb' | hb'
        · exfalso
          apply hhead
          rw [← hb']
          exact List.mem_map.mpr ⟨(k, a), ha', rfl⟩
        · exact ih (by simp only [List.map_cons, List.nodup_cons] at hnd; exact hnd.2)
            ha' hb'

theorem register_job_runs (now : Nat) (jid : String) (cfg : JobConfig) (mtime : Int)
    (s : EngineState) : (register_job now jid cfg mtime s).runs = s.runs := by
  unfold register_job
  cases lookupJob s.jobs jid <;> rfl

theorem register_job_lookup_ne (now : Nat) (jid : String) (cfg : JobConfig)
    (mtime : Int) (s : EngineState) (i : String) (hne : ¬i = jid) :
    lookupJob (register_job now jid cfg mtime s).jobs i = lookupJob s.jobs i ∧
    lookupReg (register_job now jid cfg mtime s).regs i = lookupReg s.regs i := by
  unfold register_job
  cases hex : lookupJob s.jobs jid with
  | some existing =>
      dsimp only
      constructor
      · rw [lookupJob_map_update s.jobs jid i (updated_row now jid cfg mtime)
          (fun j => rfl)]
        cases hfind : lookupJob s.jobs i with
        | none => rfl
        | some x =>
            have hxi : (x.id == i) = true := lookupJob_some_id hfind
            have hxj : (x.id == jid) = false := by
              simp at hxi
              simp [hxi]
              exact hne
            simp [hxj]
            intro hc
            have hcb : (x.id == jid) = true := by simp [hc]
            exact Bool.noConfusion (hcb.symm.trans hxj)
      · unfold lookupReg
        rw [schedule_job_regs_eq]
        cases existing.enabled with
        | true => simp [lookupA_setAssoc_ne _ _ _ _ hne]
        | false => simp [lookupA_removeA_ne _ _ _ hne]
  | none =>
      dsimp only
      constructor
      · unfold lookupJob
        cases hfind : s.jobs.find? (fun j => j.id == i) with
        | some x => rw [find?_append_some _ _ _ _ hfind]
        | none =>
            rw [find?_append_none _ _ _ hfind]
            have hji : (jid == i) = false := by
              simp
              exact fun hc => hne hc.symm
            simp [List.find?, new_row, hji, hfind]
      · unfold lookupReg
        rw [schedule_job_regs_eq]
        simp [lookupA_setAssoc_ne _ _ _ _ hne]

theorem register_job_lookup_self (now : Nat) (jid : String) (cfg : JobConfig)
    (mtime : Int) (s : EngineState) :
    (∀ j, lookupJob s.jobs jid = some j →
      lookupJob (register_job now jid cfg mtime s).jobs jid =
        some (updated_row now jid cfg mtime j) ∧
      lookupReg (register_job now jid cfg mtime s).regs jid =
        (if j.enabled then
          some (trigger_of (cfg.schedule_type.getD ("interval")) cfg.schedule_config)
         else none)) ∧
    (lookupJob s.jobs jid = none →
      lookupJob (register_job now jid cfg mtime s).jobs jid =
        some (new_row now jid cfg mtime) ∧
      lookupReg (register_job now jid cfg mtime s).regs jid =
        some (trigger_of (cfg.schedule_type.getD ("interval")) cfg.schedule_config)) := by
  constructor
  · intro j hj
    unfold register_job
    rw [hj]
    dsimp only
    constructor
    · rw [lookupJob_map_update s.jobs jid jid (updated_row now jid cfg mtime)
        (fun x => rfl)]
      rw [hj]
      have hji : (j.id == jid) = true := lookupJob_some_id hj
      simp [hji]
      intro hc
      exact absurd (by simp at hji; exact hji) hc
    · unfold lookupReg
      rw [schedule_job_regs_eq]
      cases hen : j.enabled with
      | true => simp [lookupA_setAssoc_self]
      | false => simp [lookupA_removeA_self]
  · intro hnone
    unfold register_job
    rw [hnone]
    dsimp only
    constructor
    · unfold lookupJob at hnone ⊢
      rw [find?_append_none _ _ _ hnone]
      simp [List.find?, new_row]
    · unfold lookupReg
      rw [schedule_job_regs_eq]
      simp [lookupA_setAssoc_self]

/-- C10: when `register_job` updates an already-registered job, the stored
`enabled` flag and `created_at` timestamp are untouched (the UPDATE names
neither column), and the trigger is re-registered exactly when the stored
flag is true — a disabled job stays disabled and has no registration
after the manifest edit. -/
theorem register_job_preserves_enabled (now : Nat) (jid : String) (cfg : JobConfig)
    (mtime : Int) (s : EngineState) (j : Job)
    (h : lookupJob s.jobs jid = some j) :
    lookupJob (register_job now jid cfg mtime s).jobs jid =
      some (updated_row now jid cfg mtime j) ∧
    (updated_row now jid cfg mtime j).enabled = j.enabled ∧
    (updated_row now jid cfg mtime j).created_at = j.created_at ∧
    (j.enabled = false →
      lookupReg (register_job now jid cfg mtime s).regs jid = none) ∧
    (j.enabled = true →
      lookupReg (register_job now jid cfg mtime s).regs jid =
        some (trigger_of (cfg.schedule_type.getD ("interval")) cfg.schedule_config)) := by
  rcases (register_job_lookup_self now jid cfg mtime s).1 j h with ⟨h1, h2⟩
  refine ⟨h1, rfl, rfl, ?_, ?_⟩
  · intro hen
    rw [h2, hen]
    rfl
  · intro hen
    rw [h2, hen]
    rfl

theorem register_job_preserves_enabled_witness :
    lookupJob (register_job 90 ("etl") sampleCfg 8
        { jobs := [updated_row 40 ("etl") sampleCfg 7 (new_row 30 ("etl") sampleCfg 7)],
          regs := [], runs := [] }).jobs ("etl") =
      some (updated_row 90 ("etl") sampleCfg 8
        (updated_row 40 ("etl") sampleCfg 7 (new_row 30 ("etl") sampleCfg 7))) ∧
    (updated_row 90 ("etl") sampleCfg 8
        (updated_row 40 ("etl") sampleCfg 7 (new_row 30 ("etl") sampleCfg 7))).enabled =
      (updated_row 40 ("etl") sampleCfg 7 (new_row 30 ("etl") sampleCfg 7)).enabled ∧
    (updated_row 90 ("etl") sampleCfg 8
        (updated_row 40 ("etl") sampleCfg 7 (new_row 30 ("etl") sampleCfg 7))).created_at =
      (updated_row 40 ("etl") sampleCfg 7 (new_row 30 ("etl") sampleCfg 7)).created_at ∧
    ((updated_row 40 ("etl") sampleCfg 7 (new_row 30 ("etl") sampleCfg 7)).enabled = false →
      lookupReg (register_job 90 ("etl") sampleCfg 8
        { jobs := [updated_row 40 ("etl") sampleCfg 7 (new_row 30 ("etl") sampleCfg 7)],
          regs := [], runs := [] }).regs ("etl") = none) ∧
    ((updated_row 40 ("etl") sampleCfg 7 (new_row 30 ("etl") sampleCfg 7)).enabled = true →
      lookupReg (register_job 90 ("etl") sampleCfg 8
        { jobs := [updated_row 40 ("etl") sampleCfg 7 (new_row 30 ("etl") sampleCfg 7)],
          regs := [], runs := [] }).regs ("etl") =
        some (trigger_of (sampleCfg.schedule_type.getD ("interval"))
          sampleCfg.schedule_config)) :=
  register_job_preserves_enabled 90 ("etl") sampleCfg 8
    { jobs := [updated_row 40 ("etl") sampleCfg 7 (new_row 30 ("etl") sampleCfg 7)],
      regs := [], runs := [] }
    (updated_row 40 ("etl") sampleCfg 7 (new_row 30 ("etl") sampleCfg 7)) (by decide)

theorem scanStep_runs (now : Nat) (st : EngineState) (e : DiskEntry) :
    (scanStep now st e).runs = st.runs := by
  unfold scanStep
  by_cases hh : hiddenName e.1 = true
  · simp [hh]
  · simp only [hh, Bool.false_eq_true, if_false, if_neg]
    cases e.2 with
    | none => rfl
    | some m =>
        by_cases hn : needs_update st.jobs e.1 m.mtime = true
        · simp only [hn, if_true]
          cases m.parsed with
          | none => rfl
          | some cfg => exact register_job_runs now e.1 cfg m.mtime st
        · simp [hn]

theorem scan_jobs_runs (now : Nat) (disk : List DiskEntry) (s : EngineState) :
    (scan_jobs now disk s).runs = s.runs := by
  unfold scan_jobs
  have hfold : ∀ (l : List DiskEntry) (st : EngineState),
      (l.foldl (scanStep now) st).runs = st.runs := by
    intro l
    induction l with
    | nil => intro st; rfl
    | cons e t ih =>
        intro st
        rw [List.foldl_cons, ih (scanStep now st e), scanStep_runs]
  rw [show ∀ st, (remove_stale_jobs (scanFound disk) st).runs = st.runs from
    fun st => rfl]
  exact hfold disk s

theorem scanStep_preserve_ne (now : Nat) (st : EngineState) (e : DiskEntry)
    (i : String) (hne : ¬i = e.1) :
    lookupJob (scanStep now st e).jobs i = lookupJob st.jobs i ∧
    lookupReg (scanStep now st e).regs i = lookupReg st.regs i := by
  unfold scanStep
  by_cases hh : hiddenName e.1 = true
  · simp [hh]
  · simp only [hh, Bool.false_eq_true, if_false, if_neg]
    cases e.2 with
    | none => exact ⟨rfl, rfl⟩
    | some m =>
        by_cases hn : needs_update st.jobs e.1 m.mtime = true
        · simp only [hn, if_true]
          cases m.parsed with
          | none => exact ⟨rfl, rfl⟩
          | some cfg => exact register_job_lookup_ne now e.1 cfg m.mtime st i hne
        · simp [hn]

theorem foldl_scanStep_preserve_ne (l : List DiskEntry) (now : Nat)
    (st : EngineState) (i : String) (hl : ∀ e ∈ l, ¬i = e.1) :
    lookupJob (l.foldl (scanStep now) st).jobs i = lookupJob st.jobs i ∧
    lookupReg (l.foldl (scanStep now) st).regs i = lookupReg st.regs i := by
  induction l generalizing st with
  | nil => exact ⟨rfl, rfl⟩
  | cons e t ih =>
      rcases scanStep_preserve_ne now st e i (hl e (by simp)) with ⟨p1, p2⟩
      rcases ih (scanStep now st e) (fun x hx => hl x (by simp [hx])) with ⟨q1, q2⟩
      exact ⟨q1.trans p1, q2.trans p2⟩

theorem scanStep_skip_unchanged (now : Nat) (st : EngineState) (n : String)
    (m : Manifest) (j : Job) (hrow : lookupJob st.jobs n = some j)
    (hmt : j.yaml_mtime = m.mtime) : scanStep now st (n, some m) = st := by
  unfold scanStep
  by_cases hh : hiddenName n = true
  · simp [hh]
  · have hn : needs_update st.jobs n m.mtime = false := by
      unfold needs_update
      rw [hrow]
      simp [hmt]
    simp [hh, hn]

theorem scanStep_skip_notfound (now : Nat) (st : EngineState) (n : String)
    (mo : Option Manifest) (h : hiddenName n = true ∨ mo = none) :
    scanStep now st (n, mo) = st := by
  unfold scanStep
  rcases h with hh | hm
  · simp [hh]
  · subst hm
    by_cases hh : hiddenName n = true
    · simp [hh]
    · simp [hh]

theorem mem_scanFound (disk : List DiskEntry) (n : String) (m : Manifest)
    (hmem : (n, some m) ∈ disk) (hhid : hiddenName n = false) :
    (scanFound disk).contains n = true := by
  rw [contains_eq_true]
  unfold scanFound
  exact List.mem_map.mpr
    ⟨(n, some m), List.mem_filter.mpr ⟨hmem, by simp [hhid]⟩, rfl⟩

theorem remove_stale_keep (found : List String) (s : EngineState) (i : String)
    (hf : found.contains i = true) :
    lookupJob (remove_stale_jobs found s).jobs i = lookupJob s.jobs i ∧
    lookupReg (remove_stale_jobs found s).regs i = lookupReg s.regs i := by
  unfold remove_stale_jobs
  constructor
  · unfold lookupJob
    apply find?_filter_imp
    intro x hx
    simp at hx
    rw [hx]
    exact hf
  · unfold lookupReg lookupA
    dsimp only
    rw [find?_filter_imp]
    intro x hx
    simp at hx
    rw [hx]
    have hst : ((s.jobs.map (fun j => j.id)).filter
        (fun q => !found.contains q)).contains i = false := by
      cases hcc : ((s.jobs.map (fun j => j.id)).filter
          (fun q => !found.contains q)).contains i with
      | false => rfl
      | true =>
          exfalso
          have hmem := contains_eq_true.mp hcc
          have h2 := (List.mem_filter.mp hmem).2
          rw [hf] at h2
          exact Bool.noConfusion h2
    rw [hst]
    rfl

theorem remove_stale_drop (found : List String) (s : EngineState) (i : String)
    (hf : found.contains i = false) (j : Job) (hrow : lookupJob s.jobs i = some j) :
    lookupJob (remove_stale_jobs found s).jobs i = none ∧
    lookupReg (remove_stale_jobs found s).regs i = none := by
  unfold remove_stale_jobs
  constructor
  · unfold lookupJob
    apply find?_filter_none
    intro x hx
    simp at hx
    rw [hx]
    exact hf
  · unfold lookupReg lookupA
    dsimp only
    have hji : j.id = i := by
      have := lookupJob_some_id hrow
      simpa using this
    have hmemj : j ∈ s.jobs := by
      unfold lookupJob at hrow
      exact List.mem_of_find?_eq_some hrow
    have hst : ((s.jobs.map (fun j => j.id)).filter
        (fun q => !found.contains q)).contains i = true := by
      rw [contains_eq_true]
      apply List.mem_filter.mpr
      refine ⟨List.mem_map.mpr ⟨j, hmemj, hji⟩, ?_⟩
      dsimp only
      rw [hf]
      rfl
    rw [find?_filter_none]
    · rfl
    · intro x hx
      simp at hx
      rw [hx, hst]
      rfl

theorem foldl_scanStep_keep (l : List DiskEntry) (now : Nat) (st : EngineState)
    (i : String) (j : Job) (m : Manifest)
    (hkey : ∀ e ∈ l, e.1 = i → e.2 = some m)
    (hrow : lookupJob st.jobs i = some j) (hmt : j.yaml_mtime = m.mtime) :
    lookupJob (l.foldl (scanStep now) st).jobs i = some j ∧
    lookupReg (l.foldl (scanStep now) st).regs i = lookupReg st.regs i := by
  induction l generalizing st with
  | nil => exact ⟨hrow, rfl⟩
  | cons e t ih =>
      rw [List.foldl_cons]
      by_cases he : e.1 = i
      · have hm2 := hkey e (by simp) he
        have hstep : scanStep now st e = st := by
          have : e = (i, some m) := by
            obtain ⟨n, mo⟩ := e
            simp at he hm2
            rw [he, hm2]
          rw [this]
          exact scanStep_skip_unchanged now st i m j hrow hmt
        rw [hstep]
        exact ih st (fun x hx h => hkey x (by simp [hx]) h) hrow
      · rcases scanStep_preserve_ne now st e i (fun hc => he hc.symm) with ⟨p1, p2⟩
        rcases ih (scanStep now st e) (fun x hx h => hkey x (by simp [hx]) h)
          (p1.trans hrow) with ⟨q1, q2⟩
        exact ⟨q1, q2.trans p2⟩

theorem foldl_scanStep_pres_all (l : List DiskEntry) (now : Nat)
    (st : EngineState) (i : String)
    (h : ∀ e ∈ l, e.1 = i → hiddenName e.1 = true ∨ e.2 = none) :
    lookupJob (l.foldl (scanStep now) st).jobs i = lookupJob st.jobs i ∧
    lookupReg (l.foldl (scanStep now) st).regs i = lookupReg st.regs i := by
  induction l generalizing st with
  | nil => exact ⟨rfl, rfl⟩
  | cons e t ih =>
      rw [List.foldl_cons]
      have hstep : lookupJob (scanStep now st e).jobs i = lookupJob st.jobs i ∧
          lookupReg (scanStep now st e).regs i = lookupReg st.regs i := by
        by_cases he : e.1 = i
        · have := h e (by simp) he
          obtain ⟨n, mo⟩ := e
          rw [scanStep_skip_notfound now st n mo this]
          exact ⟨rfl, rfl⟩
        · exact scanStep_preserve_ne now st e i (fun hc => he hc.symm)
      rcases hstep with ⟨p1, p2⟩
      rcases ih (scanStep now st e) (fun x hx hxi => h x (by simp [hx]) hxi)
        with ⟨q1, q2⟩
      exact ⟨q1.trans p1, q2.trans p2⟩

theorem foldl_scanStep_establishes (l : List DiskEntry) (now : Nat)
    (st : EngineState) (hnd : (l.map Prod.fst).Nodup) :
    ∀ n m cfg, (n, some m) ∈ l → hiddenName n = false → m.parsed = some cfg →
      ∃ row, lookupJob (l.foldl (scanStep now) st).jobs n = some row ∧
        row.yaml_mtime = m.mtime := by
  induction l generalizing st with
  | nil =>
      intro n m cfg h
      exact absurd h (by simp)
  | cons e t ih =>
      intro n m cfg hmem hhid hparse
      have hnd' : (t.map Prod.fst).Nodup := by
        simp only [List.map_cons, List.nodup_cons] at hnd
        exact hnd.2
      rcases List.mem_cons.mp hmem with he | ht
      · have hkeys : n ∉ t.map Prod.fst := by
          simp only [List.map_cons, List.nodup_cons] at hnd
          rw [← he] at hnd
          exact hnd.1
        rw [List.foldl_cons, ← he]
        have hstep : ∃ row,
            lookupJob (scanStep now st (n, some m)).jobs n = some row ∧
            row.yaml_mtime = m.mtime := by
          unfold scanStep
          simp only [hhid, Bool.false_eq_true, if_false, if_neg]
          by_cases hneed : needs_update st.jobs n m.mtime = true
          · simp only [hneed, if_true, hparse]
            cases hex : lookupJob st.jobs n with
            | some j0 =>
                rcases (register_job_lookup_self now n cfg m.mtime st).1 j0 hex
                  with ⟨h1, _⟩
                exact ⟨updated_row now n cfg m.mtime j0, h1, rfl⟩
            | none =>
                rcases (register_job_lookup_self now n cfg m.mtime st).2 hex
                  with ⟨h1, _⟩
                exact ⟨new_row now n cfg m.mtime, h1, rfl⟩
          · have hneed' : needs_update st.jobs n m.mtime = false := by
              cases hb : needs_update st.jobs n m.mtime with
              | false => rfl
              | true => exact absurd hb hneed
            rcases needs_update_false st.jobs n m.mtime hneed' with ⟨j0, hj0, hjm⟩
            simp only [hneed', Bool.false_eq_true, if_false, if_neg]
            exact ⟨j0, hj0, hjm⟩
        rcases hstep with ⟨row, hr1, hr2⟩
        have hpres := foldl_scanStep_preserve_ne t now
          (scanStep now st (n, some m)) n
          (fun x hx hc => hkeys (List.mem_map.mpr ⟨x, hx, hc.symm⟩))
        exact ⟨row, hpres.1.trans hr1, hr2⟩
      · rw [List.foldl_cons]
        exact ih (scanStep now st e) hnd' n m cfg ht hhid hparse

theorem foldl_scanStep_id (l : List DiskEntry) (now : Nat) (st : EngineState)
    (h : ∀ n m, (n, some m) ∈ l → hiddenName n = false →
      m.parsed.isSome = true → needs_update st.jobs n m.mtime = false) :
    l.foldl (scanStep now) st = st := by
  induction l with
  | nil => rfl
  | cons e t ih =>
      obtain ⟨n, mo⟩ := e
      have hstep : scanStep now st (n, mo) = st := by
        unfold scanStep
        by_cases hh : hiddenName n = true
        · simp [hh]
        · cases mo with
          | none => simp [hh]
          | some m =>
              cases hp : m.parsed with
              | none =>
                  by_cases hn : needs_update st.jobs n m.mtime = true
                  · simp [hh, hn, hp]
                  · simp [hh, hn]
              | some cfg =>
                  have hhid : hiddenName n = false := by
                    cases hb : hiddenName n with
                    | false => rfl
                    | true => exact absurd hb hh
                  have := h n m (by simp) hhid (by simp [hp])
                  simp [hh, this]
      rw [List.foldl_cons, hstep]
      exact ih (fun n m hm hh hp => h n m (by simp [hm]) hh hp)

theorem remove_stale_id (found : List String) (s : EngineState)
    (h : ∀ j ∈ s.jobs, found.contains j.id = true) :
    remove_stale_jobs found s = s := by
  unfold remove_stale_jobs
  have hjobs : s.jobs.filter (fun j => found.contains j.id) = s.jobs :=
    List.filter_eq_self.mpr h
  have hstale : (s.jobs.map (fun j => j.id)).filter
      (fun i => !found.contains i) = [] := by
    rw [List.filter_eq_nil_iff]
    intro a ha
    rcases List.mem_map.mp ha with ⟨j, hj, rfl⟩
    intro hcon
    rw [h j hj] at hcon
    exact Bool.noConfusion hcon
  rw [hjobs, hstale]
  dsimp only
  have hregs : s.regs.filter (fun r => !(List.contains [] r.1)) = s.regs := by
    apply List.filter_eq_self.mpr
    intro a _
    rfl
  rw [hregs]

theorem get_runs_fst_congr (runs : List Run) (jobs jobs' : List Job)
    (jid sto : Option String) (lim : Nat) :
    (get_runs runs jobs jid sto lim).map Prod.fst =
      (get_runs runs jobs' jid sto lim).map Prod.fst := by
  unfold get_runs
  simp [List.map_map, Function.comp_def]

/-- C8: a scan over a listing in which a job's manifest modification time
equals the stored one leaves that job's row exactly as it was, leaves its
trigger registration (hence its next-run time) untouched, changes nothing
in the runs table, and scanning twice in a row over the same unchanged
listing equals scanning once. -/
theorem scan_unchanged_mtime_noop (now now₂ : Nat) (disk : List DiskEntry)
    (s : EngineState) (i : String) (m : Manifest) (j : Job)
    (hnd : (disk.map Prod.fst).Nodup)
    (hmem : (i, some m) ∈ disk)
    (hhid : hiddenName i = false)
    (hrow : lookupJob s.jobs i = some j)
    (hmt : j.yaml_mtime = m.mtime) :
    lookupJob (scan_jobs now disk s).jobs i = some j ∧
    lookupReg (scan_jobs now disk s).regs i = lookupReg s.regs i ∧
    (scan_jobs now disk s).runs = s.runs ∧
    scan_jobs now₂ disk (scan_jobs now disk s) = scan_jobs now disk s := by
  have hkey : ∀ e ∈ disk, e.1 = i → e.2 = some m := by
    intro e he h1
    obtain ⟨n, mo⟩ := e
    simp at h1
    rw [h1] at he
    exact nodup_keys_eq disk hnd i mo (some m) he hmem
  have hfound := mem_scanFound disk i m hmem hhid
  rcases foldl_scanStep_keep disk now s i j m hkey hrow hmt with ⟨k1, k2⟩
  rcases remove_stale_keep (scanFound disk) (disk.foldl (scanStep now) s) i hfound
    with ⟨r1, r2⟩
  have hidem : scan_jobs now₂ disk (scan_jobs now disk s) = scan_jobs now disk s := by
    have hcond : ∀ n m2, (n, some m2) ∈ disk → hiddenName n = false →
        m2.parsed.isSome = true →
        needs_update (scan_jobs now disk s).jobs n m2.mtime = false := by
      intro n m2 hmem2 hhid2 hp2
      cases hps : m2.parsed with
      | none => rw [hps] at hp2; exact absurd hp2 (by simp)
      | some cfg =>
          rcases foldl_scanStep_establishes disk now s hnd n m2 cfg hmem2 hhid2 hps
            with ⟨row, hr1, hr2⟩
          have hfound2 := mem_scanFound disk n m2 hmem2 hhid2
          have hT : lookupJob (scan_jobs now disk s).jobs n = some row := by
            unfold scan_jobs
            rw [(remove_stale_keep (scanFound disk)
              (disk.foldl (scanStep now) s) n hfound2).1]
            exact hr1
          unfold needs_update
          rw [hT]
          simp [hr2]
    show remove_stale_jobs (scanFound disk)
        ((disk.foldl (scanStep now₂) (scan_jobs now disk s))) = scan_jobs now disk s
    rw [foldl_scanStep_id disk now₂ (scan_jobs now disk s) hcond]
    apply remove_stale_id
    intro j2 hj2
    have : j2 ∈ ((disk.foldl (scanStep now) s).jobs.filter
        (fun q => (scanFound disk).contains q.id)) := hj2
    exact (List.mem_filter.mp this).2
  refine ⟨?_, ?_, scan_jobs_runs now disk s, hidem⟩
  · unfold scan_jobs
    rw [r1]
    exact k1
  · unfold scan_jobs
    rw [r2]
    exact k2

theorem scan_unchanged_mtime_noop_witness :
    lookupJob (scan_jobs 50 sampleDisk
        { jobs := [updated_row 40 ("etl") sampleCfg 7 (new_row 30 ("etl") sampleCfg 7)],
          regs := [(("etl"), trigger_of ("interval") [(("minutes"), 5)])],
          runs := [insert_run 1 ("etl") 35 ("etl/a.log")] }).jobs ("etl") =
      some (updated_row 40 ("etl") sampleCfg 7 (new_row 30 ("etl") sampleCfg 7)) ∧
    lookupReg (scan_jobs 50 sampleDisk
        { jobs := [updated_row 40 ("etl") sampleCfg 7 (new_row 30 ("etl") sampleCfg 7)],
          regs := [(("etl"), trigger_of ("interval") [(("minutes"), 5)])],
          runs := [insert_run 1 ("etl") 35 ("etl/a.log")] }).regs ("etl") =
      lookupReg [(("etl"), trigger_of ("interval") [(("minutes"), 5)])] ("etl") ∧
    (scan_jobs 50 sampleDisk
        { jobs := [updated_row 40 ("etl") sampleCfg 7 (new_row 30 ("etl") sampleCfg 7)],
          regs := [(("etl"), trigger_of ("interval") [(("minutes"), 5)])],
          runs := [insert_run 1 ("etl") 35 ("etl/a.log")] }).runs =
      [insert_run 1 ("etl") 35 ("etl/a.log")] ∧
    scan_jobs 99 sampleDisk (scan_jobs 50 sampleDisk
        { jobs := [updated_row 40 ("etl") sampleCfg 7 (new_row 30 ("etl") sampleCfg 7)],
          regs := [(("etl"), trigger_of ("interval") [(("minutes"), 5)])],
          runs := [insert_run 1 ("etl") 35 ("etl/a.log")] }) =
      scan_jobs 50 sampleDisk
        { jobs := [updated_row 40 ("etl") sampleCfg 7 (new_row 30 ("etl") sampleCfg 7)],
          regs := [(("etl"), trigger_of ("interval") [(("minutes"), 5)])],
          runs := [insert_run 1 ("etl") 35 ("etl/a.log")] } :=
  scan_unchanged_mtime_noop 50 99 sampleDisk
    { jobs := [updated_row 40 ("etl") sampleCfg 7 (new_row 30 ("etl") sampleCfg 7)],
      regs := [(("etl"), trigger_of ("interval") [(("minutes"), 5)])],
      runs := [insert_run 1 ("etl") 35 ("etl/a.log")] }
    ("etl") { mtime := 7, parsed := some sampleCfg }
    (updated_row 40 ("etl") sampleCfg 7 (new_row 30 ("etl") sampleCfg 7))
    (by decide) (by decide) (by decide) (by decide) (by decide)

/-- C9: when a job's manifest is absent from the listing at scan time, the
scan deletes that job's row and removes its trigger registration, while
the runs table is untouched and the run-history query still returns the
same run rows for that identifier (their joined job name becomes NULL,
the rows themselves are unchanged). -/
theorem scan_missing_manifest_removal (now : Nat) (disk : List DiskEntry)
    (s : EngineState) (i : String) (j : Job) (sto : Option String) (lim : Nat)
    (hnf : (scanFound disk).contains i = false)
    (hrow : lookupJob s.jobs i = some j) :
    lookupJob (scan_jobs now disk s).jobs i = none ∧
    lookupReg (scan_jobs now disk s).regs i = none ∧
    (scan_jobs now disk s).runs = s.runs ∧
    (get_runs (scan_jobs now disk s).runs (scan_jobs now disk s).jobs
        (some i) sto lim).map Prod.fst =
      (get_runs s.runs s.jobs (some i) sto lim).map Prod.fst := by
  have hskip : ∀ e ∈ disk, e.1 = i → hiddenName e.1 = true ∨ e.2 = none := by
    intro e he h1
    by_cases hh : hiddenName e.1 = true
    · exact Or.inl hh
    · right
      cases hmo : e.2 with
      | none => rfl
      | some m =>
          exfalso
          have hhid : hiddenName e.1 = false := by
            cases hb : hiddenName e.1 with
            | false => rfl
            | true => exact absurd hb hh
          have : (e.1, some m) ∈ disk := by
            have : e = (e.1, some m) := by
              obtain ⟨n, mo⟩ := e
              simp at hmo ⊢
              exact hmo
            rw [← this]
            exact he
          have hcontains := mem_scanFound disk e.1 m this hhid
          rw [h1] at hcontains
          exact Bool.noConfusion (hcontains.symm.trans hnf)
  rcases foldl_scanStep_pres_all disk now s i hskip with ⟨p1, p2⟩
  rcases remove_stale_drop (scanFound disk) (disk.foldl (scanStep now) s) i hnf j
    (p1.trans hrow) with ⟨d1, d2⟩
  have hruns := scan_jobs_runs now disk s
  refine ⟨d1, d2, hruns, ?_⟩
  rw [hruns]
  exact get_runs_fst_congr s.runs (scan_jobs now disk s).jobs s.jobs (some i) sto lim

theorem scan_missing_manifest_removal_witness :
    lookupJob (scan_jobs 70 []
        { jobs := [new_row 30 ("etl") sampleCfg 7],
          regs := [(("etl"), trigger_of ("interval") [(("minutes"), 5)])],
          runs := [insert_run 1 ("etl") 35 ("etl/a.log")] }).jobs ("etl") = none ∧
    lookupReg (scan_jobs 70 []
        { jobs := [new_row 30 ("etl") sampleCfg 7],
          regs := [(("etl"), trigger_of ("interval") [(("minutes"), 5)])],
          runs := [insert_run 1 ("etl") 35 ("etl/a.log")] }).regs ("etl") = none ∧
    (scan_jobs 70 []
        { jobs := [new_row 30 ("etl") sampleCfg 7],
          regs := [(("etl"), trigger_of ("interval") [(("minutes"), 5)])],
          runs := [insert_run 1 ("etl") 35 ("etl/a.log")] }).runs =
      [insert_run 1 ("etl") 35 ("etl/a.log")] ∧
    (get_runs (scan_jobs 70 []
        { jobs := [new_row 30 ("etl") sampleCfg 7],
          regs := [(("etl"), trigger_of ("interval") [(("minutes"), 5)])],
          runs := [insert_run 1 ("etl") 35 ("etl/a.log")] }).runs
      (scan_jobs 70 []
        { jobs := [new_row 30 ("etl") sampleCfg 7],
          regs := [(("etl"), trigger_of ("interval") [(("minutes"), 5)])],
          runs := [insert_run 1 ("etl") 35 ("etl/a.log")] }).jobs
      (some ("etl")) none 50).map Prod.fst =
    (get_runs [insert_run 1 ("etl") 35 ("etl/a.log")]
      [new_row 30 ("etl") sampleCfg 7] (some ("etl")) none 50).map Prod.fst :=
  scan_missing_manifest_removal 70 []
    { jobs := [new_row 30 ("etl") sampleCfg 7],
      regs := [(("etl"), trigger_of ("interval") [(("minutes"), 5)])],
      runs := [insert_run 1 ("etl") 35 ("etl/a.log")] }
    ("etl") (new_row 30 ("etl") sampleCfg 7) none 50 (by decide) (by decide)

